import Mathlib

/-!
Shallow embedding of the change-analysis and prompt/response pipeline of the
git auto-commit tool: GitAnalyzer.analyzeChanges / hasChanges, the two
generators' formatCommitMessage / isConventionalFormat / truncateDiff /
generateMultipleOptions, the orchestrator's generateCommitMessage, and the
generator-option defaulting.  Strings are modelled as lists of characters;
JavaScript truthiness on strings (empty = falsy) and on numbers (0 = falsy)
is made explicit.
-/

/-- Strings are modelled as lists of characters. -/
abbrev Str := List Char

/-- Convert a Lean string literal to the model type. -/
def toL (s : String) : Str := s.data

/-- JavaScript `[...new Set(xs)]`: de-duplicate keeping the first occurrence. -/
def jsDedup {α : Type} [DecidableEq α] (l : List α) : List α :=
  l.foldl (fun acc a => if a ∈ acc then acc else acc ++ [a]) []

/-- JavaScript `s.split(sep)` for a one-character separator. -/
def splitOnChar (sep : Char) : Str → List Str
  | [] => [[]]
  | c :: rest =>
    if c = sep then [] :: splitOnChar sep rest
    else
      match splitOnChar sep rest with
      | [] => [[c]]
      | l :: ls => (c :: l) :: ls

/-- JavaScript `parts.join(sep)` for a one-character separator. -/
def joinWith (sep : Char) : List Str → Str
  | [] => []
  | [l] => l
  | l :: ls => l ++ sep :: joinWith sep ls

/-- JavaScript `hay.includes(needle)`: substring containment. -/
def includesSub (hay needle : Str) : Bool :=
  (List.range (hay.length + 1)).any
    (fun i => (hay.drop i).take needle.length == needle)

example : includesSub (toL "a/test/b") (toL "test") = true := by decide
example : includesSub (toL "abc") (toL "test") = false := by decide
example : splitOnChar '/' (toL "a/b/c") = [toL "a", toL "b", toL "c"] := by decide
example : jsDedup [1, 2, 1, 3, 2] = [1, 2, 3] := by decide

/-! ## GitAnalyzer: status data and `analyzeChanges` / `hasChanges` -/

/-- The file-status record returned by `getChangedFiles` / `git.status()`:
the five category lists plus the full `files` list that `hasChanges`
inspects.  Each entry is a file path. -/
structure GitStatus where
  staged : List Str
  modified : List Str
  created : List Str
  deleted : List Str
  renamed : List Str
  files : List Str
deriving DecidableEq

/-- The `stats` sub-object of the analysis result. -/
structure ChangeStats where
  additions : Nat
  deletions : Nat
  filesChanged : Nat
deriving DecidableEq

/-- The analysis object produced by `GitAnalyzer.analyzeChanges`. -/
structure ChangeAnalysis where
  type : Str
  scope : Str
  files : List Str
  stats : ChangeStats
deriving DecidableEq

/-- `[...new Set([...staged, ...modified, ...created, ...deleted])]`. -/
def analyzeFiles (c : GitStatus) : List Str :=
  jsDedup (c.staged ++ c.modified ++ c.created ++ c.deleted)

/-- The type-inference rule chain of `analyzeChanges`. -/
def analyzeType (c : GitStatus) (files : List Str) : Str :=
  if c.created.length > 0 then toL "feat"
  else if c.deleted.length > 0 then toL "feat"
  else if files.any (fun f => includesSub f (toL "test")) then toL "test"
  else if files.any (fun f => includesSub f (toL "doc") || includesSub f (toL "README")) then
    toL "docs"
  else if files.any (fun f => includesSub f (toL "config") || includesSub f (toL "package.json")) then
    toL "chore"
  else toL "feat"

/-- `const parts = file.split('/'); return parts.length > 1 ? parts[0] : '';` -/
def firstSegment (f : Str) : Str :=
  let parts := splitOnChar '/' f
  if 1 < parts.length then parts.headI else []

/-- `scopeCounts[scope] = (scopeCounts[scope] || 0) + 1` on an
insertion-ordered string-keyed object, modelled as an association list. -/
def bump : List (Str × Nat) → Str → List (Str × Nat)
  | [], k => [(k, 1)]
  | (k', n) :: rest, k =>
    if k' = k then (k', n + 1) :: rest else (k', n) :: bump rest k

/-- The `scopeCounts` object after tallying all non-empty first segments. -/
def scopeCounts (files : List Str) : List (Str × Nat) :=
  (files.map firstSegment).foldl (fun m s => if s = [] then m else bump m s) []

/-- `scopeCounts[k]` lookup. -/
def lookupCount (m : List (Str × Nat)) (k : Str) : Nat :=
  ((m.find? (fun p => p.1 = k)).map Prod.snd).getD 0

/-- Decimal value of a digit string. -/
def numValue (s : Str) : Nat :=
  s.foldl (fun n c => n * 10 + (c.toNat - '0'.toNat)) 0

/-- A canonical array-index key in the ECMAScript sense: the canonical
decimal representation (no leading zero except `0` itself) of an integer
below 2^32 - 1. -/
def isArrayIndex (s : Str) : Bool :=
  !s.isEmpty && s.all Char.isDigit && (s == toL "0" || !(s.head? == some '0')) &&
    decide (numValue s ≤ 4294967294)

/-- Insertion of a key into a list sorted by ascending numeric value. -/
def insertByNum (s : Str) : List Str → List Str
  | [] => [s]
  | t :: ts => if numValue s ≤ numValue t then s :: t :: ts else t :: insertByNum s ts

/-- Insertion sort by ascending numeric value. -/
def sortByNum : List Str → List Str
  | [] => []
  | s :: ss => insertByNum s (sortByNum ss)

/-- `Object.keys` enumeration order on a string-keyed object: canonical
array-index keys first in ascending numeric order, then the remaining keys in
insertion order. -/
def jsObjectKeys (m : List (Str × Nat)) : List Str :=
  sortByNum ((m.map Prod.fst).filter isArrayIndex) ++
    (m.map Prod.fst).filter (fun k => !(isArrayIndex k))

/-- The scope chosen by `analyzeChanges`:
`Object.keys(scopeCounts).reduce((a, b) => scopeCounts[a] > scopeCounts[b] ? a : b)`
when the key set is non-empty, otherwise the initial empty scope.  The keys
are enumerated in `Object.keys` order. -/
def analyzeScope (files : List Str) : Str :=
  let m := scopeCounts files
  match jsObjectKeys m with
  | [] => []
  | k :: ks => ks.foldl (fun a b => if lookupCount m a > lookupCount m b then a else b) k

/-- The scope-inference rule as the spec words it: most frequent candidate,
ties broken toward the first-encountered candidate in the tally's insertion
order.  Defined only to be compared against `analyzeScope`. -/
def scopeSpecFirstTie (files : List Str) : Str :=
  let m := scopeCounts files
  match m.map Prod.fst with
  | [] => []
  | k :: ks => ks.foldl (fun a b => if lookupCount m b > lookupCount m a then b else a) k

/-- `GitAnalyzer.analyzeChanges`, as a function of the status record and the
diff text it reads (`getStagedDiff() || getWorkingDiff()`). -/
def analyzeChanges (c : GitStatus) (diff : Str) : ChangeAnalysis :=
  let files := analyzeFiles c
  let adds := if diff = [] then 0
    else ((splitOnChar '\n' diff).filter (fun l => l.head? == some '+')).length
  let dels := if diff = [] then 0
    else ((splitOnChar '\n' diff).filter (fun l => l.head? == some '-')).length
  { type := analyzeType c files
    scope := analyzeScope files
    files := files
    stats := { additions := adds, deletions := dels, filesChanged := files.length } }

/-- `GitAnalyzer.hasChanges`: `status.files.length > 0`. -/
def hasChanges (s : GitStatus) : Bool :=
  decide (s.files.length > 0)

/-- The deduplicated union of staged, modified, created and deleted paths
(the spec's ChangeSet), i.e. the `files` field of the analysis. -/
def changeSet (s : GitStatus) : List Str := analyzeFiles s

example :
    analyzeScope [toL "src/a.js", toL "src/b.js", toL "lib/c.js"] = toL "src" := by decide
example : analyzeScope [toL "a/x", toL "b/y"] = toL "b" := by decide
example : analyzeScope [toL "plain.js"] = [] := by decide
example : analyzeScope [toL "b/x", toL "1/y"] = toL "b" := by decide
example : jsObjectKeys [(toL "b", 1), (toL "1", 1)] = [toL "1", toL "b"] := by decide
example :
    analyzeType ⟨[], [toL "a"], [], [], [], []⟩ [toL "src/test/a.js"] = toL "test" := by decide

/-! ## Formatter: `isConventionalFormat` and `formatCommitMessage`

The regular expression `^(feat|fix|docs|style|refactor|test|chore)(\(.+\))?: .+`
is embedded as an executable matcher: `.` matches any character except the
four ECMAScript line terminators, `.+` at least one of them, and the optional
parenthesised scope is an existential over the position of the closing
parenthesis. -/

/-- The seven conventional-commit type tags, in the regex's order. -/
def commitTypes : List Str :=
  [toL "feat", toL "fix", toL "docs", toL "style", toL "refactor", toL "test", toL "chore"]

/-- ECMAScript `.` (no dotAll flag): any character except the four line
terminators LF, CR, LINE SEPARATOR and PARAGRAPH SEPARATOR. -/
def dotChar (c : Char) : Bool :=
  !(c == '\n' || c == '\r' || c == '\u2028' || c == '\u2029')

/-- `.+` right after `: `: at least one character, the first not a line
terminator (the regex has no end anchor, so only the first character
matters). -/
def descMatch : Str → Bool
  | c :: _ => dotChar c
  | [] => false

/-- Matches `: ` followed by `.+`. -/
def colonRest : Str → Bool
  | ':' :: ' ' :: rest => descMatch rest
  | _ => false

/-- Matches `)` followed by `: .+`. -/
def closeRest : Str → Bool
  | ')' :: rest => colonRest rest
  | _ => false

/-- Matches `\(.+\): .+`: some position `i ≥ 1` splits the remainder into a
non-empty scope body free of line terminators and a `): .+` tail. -/
def parenRest : Str → Bool
  | '(' :: r =>
    (List.range r.length).any
      (fun i => decide (0 < i) && (r.take i).all dotChar && closeRest (r.drop i))
  | _ => false

/-- What may follow the type tag: `(\(.+\))?: .+`. -/
def restMatch (r : Str) : Bool := colonRest r || parenRest r

/-- One alternative of the regex: the string starts with tag `t` and the
remainder matches `(\(.+\))?: .+`. -/
def matchType (t : Str) (s : Str) : Bool :=
  (s.take t.length == t) && restMatch (s.drop t.length)

/-- `isConventionalFormat`: the message matches
`^(feat|fix|docs|style|refactor|test|chore)(\(.+\))?: .+`. -/
def isConventionalFormat (s : Str) : Bool :=
  commitTypes.any (fun t => matchType t s)

/-- `formatCommitMessage(message, analysis)` of both generators, with the
configured `style` made an explicit argument: return the message as-is when it
already matches the conventional pattern; otherwise, in `conventional` style,
prefix `type(scope): ` (the parenthesised scope omitted when empty). -/
def formatCommitMessage (style : Str) (message : Str) (a : ChangeAnalysis) : Str :=
  if isConventionalFormat message then message
  else if style = toL "conventional" then
    a.type ++ (if a.scope = [] then [] else '(' :: a.scope ++ [')']) ++ ':' :: ' ' :: message
  else message

example : isConventionalFormat (toL "feat(core): add parsing") = true := by decide
example : isConventionalFormat (toL "feat: add parsing") = true := by decide
example : isConventionalFormat (toL "feature: add parsing") = false := by decide
example : isConventionalFormat (toL "feat: ") = false := by decide
example : isConventionalFormat (toL "feat(): x") = false := by decide
example : isConventionalFormat (toL "feat: \rx") = false := by decide
example : isConventionalFormat (toL "fix(a\rb): hello") = false := by decide

/-! ## `truncateDiff` -/

/-- `truncateDiff(diff)` with the default `maxLines = 50`: empty (falsy) input
yields the empty string; at most 50 lines are kept verbatim; otherwise the
first 50 lines are kept and a literal `... (truncated)` marker line is
appended. -/
def truncateDiff (d : Str) : Str :=
  if d = [] then []
  else
    let lines := splitOnChar '\n' d
    if lines.length ≤ 50 then d
    else joinWith '\n' (lines.take 50) ++ '\n' :: toL "... (truncated)"

/-! ## Generator construction: JavaScript `||` defaulting -/

/-- JavaScript `x || d` for an optional string field: `undefined` and the
empty string are falsy. -/
def jsOrStr (x : Option Str) (d : Str) : Str :=
  match x with
  | none => d
  | some s => if s = [] then d else s

/-- JavaScript `x || d` for an optional numeric field: `undefined` and `0`
are falsy. -/
def jsOrNum (x : Option ℚ) (d : ℚ) : ℚ :=
  match x with
  | none => d
  | some v => if v = 0 then d else v

/-- The configuration object handed to `AICommitGenerator`: fields may be
absent (`undefined`). -/
structure RawConfig where
  model : Option Str
  language : Option Str
  style : Option Str
  maxTokens : Option ℚ
  temperature : Option ℚ
deriving DecidableEq

/-- The `options` object accepted by the `DashScopeGenerator` constructor. -/
structure RawOptions where
  model : Option Str
  language : Option Str
  style : Option Str
  maxTokens : Option ℚ
  temperature : Option ℚ
deriving DecidableEq

/-- The resolved `this.options` of a constructed `DashScopeGenerator`. -/
structure GenOptions where
  model : Str
  language : Str
  style : Str
  maxTokens : ℚ
  temperature : ℚ
deriving DecidableEq

/-- The `DashScopeGenerator` constructor's option resolution. -/
def dashscopeInit (o : RawOptions) : GenOptions :=
  { model := jsOrStr o.model (toL "qwen-turbo")
    language := jsOrStr o.language (toL "zh-CN")
    style := jsOrStr o.style (toL "conventional")
    maxTokens := jsOrNum o.maxTokens 100
    temperature := jsOrNum o.temperature (3 / 10) }

/-- `AICommitGenerator.setupGenerator` in the dashscope branch: each config
field is defaulted with `||` and passed to the `DashScopeGenerator`
constructor, which applies the same defaulting again. -/
def setupGenerator (c : RawConfig) : GenOptions :=
  dashscopeInit
    { model := some (jsOrStr c.model (toL "qwen-turbo"))
      language := some (jsOrStr c.language (toL "zh-CN"))
      style := some (jsOrStr c.style (toL "conventional"))
      maxTokens := some (jsOrNum c.maxTokens 100)
      temperature := some (jsOrNum c.temperature (3 / 10)) }

example : (setupGenerator ⟨none, none, none, some 0, some 0⟩).temperature = 3 / 10 := by
  simp [setupGenerator, dashscopeInit, jsOrNum]

/-! ## Multi-option generation -/

/-- `Promise.all` over already-settled results: the list of values when all
succeed, otherwise a rejection. -/
def promiseAll {ε α : Type} : List (Except ε α) → Except ε (List α)
  | [] => .ok []
  | r :: rs =>
    match r with
    | .error e => .error e
    | .ok v =>
      match promiseAll rs with
      | .error e => .error e
      | .ok vs => .ok (v :: vs)

/-- The error wrapper of `generateMultipleOptions`'s catch block. -/
def wrapMultiErr (e : Str) : Str := toL "生成多个提交信息选项失败: " ++ e

/-- `generateMultipleOptions(diff, analysis, recentCommits, count)`: `count`
generation calls (the backend's per-call outcome is `gen i`), awaited with
`Promise.all`, de-duplicated with `new Set` on success, wrapped into a single
failure otherwise. -/
def generateMultipleOptions (gen : Nat → Except Str Str) (count : Nat) :
    Except Str (List Str) :=
  match promiseAll ((List.range count).map gen) with
  | .ok vs => .ok (jsDedup vs)
  | .error e => .error (wrapMultiErr e)

/-- A mocked backend returning a distinct reply on each call. -/
def genBackend (i : Nat) : Except Str Str := Except.ok (List.replicate i 'a')

/-! ## Orchestrator: `GitAutoCommit.generateCommitMessage` -/

/-- The awaited pipeline inside the orchestrator's `try` block: diff
retrieval, change analysis, history retrieval, then the backend generation
call; any step may throw. -/
def orchPipeline (diff : Except Str Str) (analysis : Except Str ChangeAnalysis)
    (commits : Except Str (List Str))
    (gen : Str → ChangeAnalysis → List Str → Except Str Str) : Except Str Str := do
  let d ← diff
  let a ← analysis
  let cs ← commits
  gen d a cs

/-- `GitAutoCommit.generateCommitMessage`: returns `null` when not in a git
repository or when there are no changes; otherwise runs the pipeline inside a
`try` whose `catch` also returns `null`. -/
def generateCommitMessage (isRepo hasChg : Bool) (diff : Except Str Str)
    (analysis : Except Str ChangeAnalysis) (commits : Except Str (List Str))
    (gen : Str → ChangeAnalysis → List Str → Except Str Str) : Option Str :=
  if !isRepo then none
  else if !hasChg then none
  else
    match orchPipeline diff analysis commits gen with
    | .ok m => some m
    | .error _ => none

/-! ## Lemmas about splitting and joining -/

lemma splitOnChar_ne_nil (sep : Char) (l : Str) : splitOnChar sep l ≠ [] := by
  induction l with
  | nil => simp [splitOnChar]
  | cons c rest ih =>
    simp only [splitOnChar]
    by_cases h : c = sep
    · simp [h]
    · simp only [if_neg h]
      cases hs : splitOnChar sep rest with
      | nil => exact absurd hs ih
      | cons l ls => simp

lemma mem_splitOnChar_not_mem (sep : Char) (d : Str) :
    ∀ l ∈ splitOnChar sep d, sep ∉ l := by
  induction d with
  | nil =>
    intro l hl
    simp [splitOnChar] at hl
    simp [hl]
  | cons c rest ih =>
    intro l hl
    simp only [splitOnChar] at hl
    by_cases h : c = sep
    · rw [if_pos h] at hl
      rcases List.mem_cons.mp hl with h1 | h1
      · simp [h1]
      · exact ih l h1
    · rw [if_neg h] at hl
      cases hs : splitOnChar sep rest with
      | nil => exact absurd hs (splitOnChar_ne_nil sep rest)
      | cons p ps =>
        rw [hs] at hl
        rcases List.mem_cons.mp hl with h1 | h1
        · subst h1
          intro hmem
          rcases List.mem_cons.mp hmem with h2 | h2
          · exact h h2.symm
          · exact ih p (hs ▸ List.mem_cons_self p ps) h2
        · exact ih l (hs ▸ List.mem_cons_of_mem p h1)

lemma splitOnChar_not_mem (sep : Char) (a : Str) (h : sep ∉ a) :
    splitOnChar sep a = [a] := by
  induction a with
  | nil => rfl
  | cons c rest ih =>
    have hc : ¬ c = sep := fun hh => h (by simp [hh])
    have hrest : sep ∉ rest := fun hh => h (List.mem_cons_of_mem _ hh)
    simp only [splitOnChar, if_neg hc, ih hrest]

lemma splitOnChar_append (sep : Char) (a b : Str) (h : sep ∉ a) :
    splitOnChar sep (a ++ sep :: b) = a :: splitOnChar sep b := by
  induction a with
  | nil => simp [splitOnChar]
  | cons c rest ih =>
    have hc : ¬ c = sep := fun hh => h (by simp [hh])
    have hrest : sep ∉ rest := fun hh => h (List.mem_cons_of_mem _ hh)
    rw [List.cons_append]
    simp only [splitOnChar, if_neg hc]
    rw [ih hrest]

lemma joinWith_cons (sep : Char) (l : Str) (ls : List Str) (h : ls ≠ []) :
    joinWith sep (l :: ls) = l ++ sep :: joinWith sep ls := by
  cases ls with
  | nil => exact absurd rfl h
  | cons l' ls' => rfl

lemma splitOnChar_joinWith (sep : Char) (L : List Str) (hne : L ≠ [])
    (h : ∀ l ∈ L, sep ∉ l) : splitOnChar sep (joinWith sep L) = L := by
  induction L with
  | nil => exact absurd rfl hne
  | cons l ls ih =>
    cases ls with
    | nil => exact splitOnChar_not_mem sep l (h l (by simp))
    | cons l' ls' =>
      rw [joinWith_cons sep l _ (by simp)]
      rw [splitOnChar_append sep l _ (h l (by simp))]
      rw [ih (by simp) (fun x hx => h x (List.mem_cons_of_mem _ hx))]

lemma joinWith_concat (sep : Char) (A : List Str) (m : Str) (h : A ≠ []) :
    joinWith sep (A ++ [m]) = joinWith sep A ++ sep :: m := by
  induction A with
  | nil => exact absurd rfl h
  | cons l ls ih =>
    cases ls with
    | nil => rfl
    | cons l' ls' =>
      rw [List.cons_append, joinWith_cons sep l _ (by simp), ih (by simp),
        joinWith_cons sep l _ (by simp)]
      simp

lemma joinWith_eq_nil (sep : Char) (L : List Str) (h : joinWith sep L = []) :
    L = [] ∨ L = [[]] := by
  match L with
  | [] => exact Or.inl rfl
  | [l] => exact Or.inr (by simp only [joinWith] at h; rw [h])
  | l :: l' :: ls =>
    rw [joinWith_cons sep l _ (by simp)] at h
    exact absurd h (by simp)

/-- C5: truncation of a diff with at most 50 lines is the identity; for more
than 50 lines the output has exactly 51 lines and the 51st line is the
literal marker `... (truncated)`. -/
theorem truncateDiff_spec (d : Str) :
    ((splitOnChar '\n' d).length ≤ 50 → truncateDiff d = d) ∧
    (50 < (splitOnChar '\n' d).length →
      (splitOnChar '\n' (truncateDiff d)).length = 51 ∧
      (splitOnChar '\n' (truncateDiff d)).getLastD [] = toL "... (truncated)") := by
  constructor
  · intro h
    unfold truncateDiff
    by_cases hd : d = []
    · simp [hd]
    · simp [hd, h]
  · intro h
    have hd : d ≠ [] := by
      intro hd
      rw [hd] at h
      simp [splitOnChar] at h
    have htr : truncateDiff d =
        joinWith '\n' ((splitOnChar '\n' d).take 50) ++ '\n' :: toL "... (truncated)" := by
      unfold truncateDiff
      rw [if_neg hd, if_neg (by omega)]
    have hA : ((splitOnChar '\n' d).take 50) ≠ [] := by
      have h50 : ((splitOnChar '\n' d).take 50).length = 50 := by
        rw [List.length_take]
        omega
      intro hnil
      rw [hnil] at h50
      simp at h50
    have hconcat : truncateDiff d =
        joinWith '\n' ((splitOnChar '\n' d).take 50 ++ [toL "... (truncated)"]) := by
      rw [htr, joinWith_concat _ _ _ hA]
    have hnomem : ∀ l ∈ (splitOnChar '\n' d).take 50 ++ [toL "... (truncated)"], '\n' ∉ l := by
      intro l hl
      rcases List.mem_append.mp hl with h1 | h1
      · exact mem_splitOnChar_not_mem '\n' d l (List.mem_of_mem_take h1)
      · simp at h1
        rw [h1]
        decide
    have hsplit : splitOnChar '\n' (truncateDiff d) =
        (splitOnChar '\n' d).take 50 ++ [toL "... (truncated)"] := by
      rw [hconcat]
      exact splitOnChar_joinWith _ _ (by simp) hnomem
    constructor
    · rw [hsplit]
      simp [List.length_take]
      omega
    · rw [hsplit]
      simp

/-- C5 witness: a 2-line diff is returned verbatim, and a concrete 51-line
diff is cut to 50 lines plus the marker line. -/
theorem truncateDiff_spec_witness :
    truncateDiff (toL "a\nb") = toL "a\nb" ∧
    50 < (splitOnChar '\n' (joinWith '\n' (List.replicate 51 ['a']))).length ∧
    (splitOnChar '\n' (truncateDiff (joinWith '\n' (List.replicate 51 ['a'])))).length = 51 ∧
    (splitOnChar '\n' (truncateDiff (joinWith '\n' (List.replicate 51 ['a'])))).getLastD [] =
      toL "... (truncated)" :=
  ⟨(truncateDiff_spec _).1 (by decide), by decide,
    (truncateDiff_spec _).2 (by decide)⟩

/-- C6: for a diff whose lines are `L`, the computed stats count exactly the
lines starting with `+` as additions and the lines starting with `-` as
deletions, header lines included. -/
theorem analyzeChanges_stats (c : GitStatus) (L : List Str) (hne : L ≠ [])
    (h : ∀ l ∈ L, '\n' ∉ l) :
    (analyzeChanges c (joinWith '\n' L)).stats.additions =
      L.countP (fun l => l.head? == some '+') ∧
    (analyzeChanges c (joinWith '\n' L)).stats.deletions =
      L.countP (fun l => l.head? == some '-') := by
  by_cases hd : joinWith '\n' L = []
  · rcases joinWith_eq_nil '\n' L hd with h1 | h1
    · exact absurd h1 hne
    · subst h1
      rw [show joinWith '\n' [([] : Str)] = [] from rfl]
      constructor <;> simp [analyzeChanges, List.countP_cons]
  · have hs : splitOnChar '\n' (joinWith '\n' L) = L := splitOnChar_joinWith '\n' L hne h
    constructor <;> simp [analyzeChanges, hd, hs, List.countP_eq_length_filter]

/-- C6 witness: a concrete 4-line diff with two `+` lines and one `-` line. -/
theorem analyzeChanges_stats_witness :
    (analyzeChanges ⟨[], [], [], [], [], []⟩
      (joinWith '\n' [toL "+a", toL "-b", toL " c", toL "+d"])).stats.additions = 2 ∧
    (analyzeChanges ⟨[], [], [], [], [], []⟩
      (joinWith '\n' [toL "+a", toL "-b", toL " c", toL "+d"])).stats.deletions = 1 := by
  have h := analyzeChanges_stats ⟨[], [], [], [], [], []⟩
    [toL "+a", toL "-b", toL " c", toL "+d"] (by decide) (by decide)
  exact ⟨h.1.trans (by decide), h.2.trans (by decide)⟩

/-- C7: the change type is decided by the first matching rule: any created
file → feat; else any deleted file → feat; else any file containing "test" →
test; else any file containing "doc" or "README" → docs; else any file
containing "config" or "package.json" → chore; else feat. -/
theorem analyzeType_priority (c : GitStatus) (d : Str) :
    (c.created ≠ [] → (analyzeChanges c d).type = toL "feat") ∧
    (c.created = [] → c.deleted ≠ [] → (analyzeChanges c d).type = toL "feat") ∧
    (c.created = [] → c.deleted = [] →
      (analyzeChanges c d).files.any (fun f => includesSub f (toL "test")) = true →
      (analyzeChanges c d).type = toL "test") ∧
    (c.created = [] → c.deleted = [] →
      (analyzeChanges c d).files.any (fun f => includesSub f (toL "test")) = false →
      (analyzeChanges c d).files.any
        (fun f => includesSub f (toL "doc") || includesSub f (toL "README")) = true →
      (analyzeChanges c d).type = toL "docs") ∧
    (c.created = [] → c.deleted = [] →
      (analyzeChanges c d).files.any (fun f => includesSub f (toL "test")) = false →
      (analyzeChanges c d).files.any
        (fun f => includesSub f (toL "doc") || includesSub f (toL "README")) = false →
      (analyzeChanges c d).files.any
        (fun f => includesSub f (toL "config") || includesSub f (toL "package.json")) = true →
      (analyzeChanges c d).type = toL "chore") ∧
    (c.created = [] → c.deleted = [] →
      (analyzeChanges c d).files.any (fun f => includesSub f (toL "test")) = false →
      (analyzeChanges c d).files.any
        (fun f => includesSub f (toL "doc") || includesSub f (toL "README")) = false →
      (analyzeChanges c d).files.any
        (fun f => includesSub f (toL "config") || includesSub f (toL "package.json")) = false →
      (analyzeChanges c d).type = toL "feat") := by
  refine ⟨?_, ?_, ?_, ?_, ?_, ?_⟩
  · intro h1
    have : 0 < c.created.length := List.length_pos.mpr h1
    simp [analyzeChanges, analyzeType, this]
  · intro h1 h2
    have : 0 < c.deleted.length := List.length_pos.mpr h2
    simp [analyzeChanges, analyzeType, h1, this]
  · intro h1 h2 h3
    simp only [analyzeChanges] at h3 ⊢
    simp [analyzeType, h1, h2, h3]
  · intro h1 h2 h3 h4
    simp only [analyzeChanges] at h3 h4 ⊢
    simp [analyzeType, h1, h2, h3, h4]
  · intro h1 h2 h3 h4 h5
    simp only [analyzeChanges] at h3 h4 h5 ⊢
    simp [analyzeType, h1, h2, h3, h4, h5]
  · intro h1 h2 h3 h4 h5
    simp only [analyzeChanges] at h3 h4 h5 ⊢
    simp [analyzeType, h1, h2, h3, h4, h5]

/-- C7 witness: a created file forces feat, and a modified test file (with
nothing created or deleted) forces test. -/
theorem analyzeType_priority_witness :
    (analyzeChanges ⟨[], [], [toL "new.js"], [], [], [toL "new.js"]⟩ []).type = toL "feat" ∧
    (analyzeChanges ⟨[], [toL "src/test/a.js"], [], [], [], [toL "src/test/a.js"]⟩ []).type =
      toL "test" :=
  ⟨(analyzeType_priority ⟨[], [], [toL "new.js"], [], [], [toL "new.js"]⟩ []).1 (by decide),
    (analyzeType_priority ⟨[], [toL "src/test/a.js"], [], [], [], [toL "src/test/a.js"]⟩ []).2.2.1
      rfl rfl (by decide)⟩

/-- C8: a message that already matches the conventional-commit pattern is
returned unchanged by the formatter, for every analysis and every style. -/
theorem formatConventional_unchanged (style message : Str) (a : ChangeAnalysis)
    (h : isConventionalFormat message = true) :
    formatCommitMessage style message a = message := by
  simp [formatCommitMessage, h]

/-- C8 witness: a concrete conventional message survives formatting under a
non-conventional style and an unrelated analysis. -/
theorem formatConventional_unchanged_witness :
    isConventionalFormat (toL "fix(core): patch") = true ∧
    formatCommitMessage (toL "free") (toL "fix(core): patch")
      ⟨toL "feat", toL "x", [], ⟨0, 0, 0⟩⟩ = toL "fix(core): patch" :=
  ⟨by decide, formatConventional_unchanged _ _ _ (by decide)⟩

lemma jsOrNum_ne_zero (x : Option ℚ) (d : ℚ) (hd : d ≠ 0) : jsOrNum x d ≠ 0 := by
  cases x with
  | none => simpa [jsOrNum]
  | some v =>
    show (if v = 0 then d else v) ≠ 0
    by_cases hv : v = 0
    · rw [if_pos hv]
      exact hd
    · rw [if_neg hv]
      exact hv

/-- C10: a configured temperature of 0 is replaced by the default 0.3 and a
configured maxTokens of 0 by the default 100, and the constructed generator's
temperature is never 0. -/
theorem setupGenerator_falsy (c : RawConfig) :
    (c.temperature = some 0 → (setupGenerator c).temperature = 3 / 10) ∧
    (c.maxTokens = some 0 → (setupGenerator c).maxTokens = 100) ∧
    (setupGenerator c).temperature ≠ 0 := by
  refine ⟨?_, ?_, ?_⟩
  · intro h
    simp [setupGenerator, dashscopeInit, jsOrNum, h]
  · intro h
    simp [setupGenerator, dashscopeInit, jsOrNum, h]
  · exact jsOrNum_ne_zero (some (jsOrNum c.temperature (3 / 10))) (3 / 10) (by norm_num)

/-- C10 witness: the all-zero numeric configuration gets both defaults. -/
theorem setupGenerator_falsy_witness :
    (setupGenerator ⟨none, none, none, some 0, some 0⟩).temperature = 3 / 10 ∧
    (setupGenerator ⟨none, none, none, some 0, some 0⟩).maxTokens = 100 :=
  ⟨(setupGenerator_falsy _).1 rfl, (setupGenerator_falsy _).2.1 rfl⟩

/-- C2 counterexample: with a repository present and pending changes, a
failing pipeline step still yields the absence sentinel, so the sentinel is
not produced only in the two non-error conditions and the failure does not
propagate to the caller. -/
theorem generateCommitMessage_error_counterexample :
    ¬ (generateCommitMessage true true (Except.error (toL "backend failure"))
        (Except.ok ⟨toL "feat", [], [], ⟨0, 0, 0⟩⟩) (Except.ok [])
        (fun d _ _ => Except.ok d) = none →
      true = false ∨ true = false) := by
  intro h
  rcases h rfl with h1 | h1 <;> simp at h1

/-- C2 amended: the orchestrator's try/catch maps every component failure to
the same absence sentinel, so the sentinel is produced exactly when the
working copy is not a repository, has no pending changes, or some pipeline
step failed; a result is produced exactly when both checks pass and the
pipeline succeeds. -/
theorem generateCommitMessage_sentinel (isRepo hasChg : Bool)
    (diff : Except Str Str) (analysis : Except Str ChangeAnalysis)
    (commits : Except Str (List Str))
    (gen : Str → ChangeAnalysis → List Str → Except Str Str) :
    (generateCommitMessage isRepo hasChg diff analysis commits gen = none ↔
      isRepo = false ∨ hasChg = false ∨
        ∃ e, orchPipeline diff analysis commits gen = Except.error e) ∧
    (∀ m, generateCommitMessage isRepo hasChg diff analysis commits gen = some m ↔
      isRepo = true ∧ hasChg = true ∧
        orchPipeline diff analysis commits gen = Except.ok m) := by
  cases isRepo with
  | false => simp [generateCommitMessage]
  | true =>
    cases hasChg with
    | false => simp [generateCommitMessage]
    | true =>
      cases h : orchPipeline diff analysis commits gen with
      | ok m => simp [generateCommitMessage, h]
      | error e => simp [generateCommitMessage, h]

lemma promiseAll_ok_mem {ε α : Type} {rs : List (Except ε α)} {vs : List α}
    (h : promiseAll rs = Except.ok vs) : ∀ r ∈ rs, ∃ v, r = Except.ok v := by
  induction rs generalizing vs with
  | nil =>
    intro r hr
    simp at hr
  | cons r rs ih =>
    intro x hx
    cases r with
    | error e => simp [promiseAll] at h
    | ok v =>
      simp only [promiseAll] at h
      cases hp : promiseAll rs with
      | error e =>
        rw [hp] at h
        simp at h
      | ok vs' =>
        rw [hp] at h
        rcases List.mem_cons.mp hx with h1 | h1
        · exact ⟨v, h1⟩
        · exact ih hp x h1

/-- C9: with count 3 and three distinct backend replies the operation returns
exactly those three candidates; with three identical replies it returns
exactly one; and if any of the count calls fails, the whole operation fails
with an error and returns no partial results. -/
theorem generateMultipleOptions_spec (gen : Nat → Except Str Str) (v0 v1 v2 : Str) :
    (gen 0 = Except.ok v0 → gen 1 = Except.ok v1 → gen 2 = Except.ok v2 →
      v0 ≠ v1 → v0 ≠ v2 → v1 ≠ v2 →
      generateMultipleOptions gen 3 = Except.ok [v0, v1, v2]) ∧
    (gen 0 = Except.ok v0 → gen 1 = Except.ok v0 → gen 2 = Except.ok v0 →
      generateMultipleOptions gen 3 = Except.ok [v0]) ∧
    (∀ count i e, i < count → gen i = Except.error e →
      ∃ err, generateMultipleOptions gen count = Except.error err) := by
  refine ⟨?_, ?_, ?_⟩
  · intro h0 h1 h2 d01 d02 d12
    have hr : List.range 3 = [0, 1, 2] := by decide
    simp only [generateMultipleOptions, hr, List.map_cons, List.map_nil, h0, h1, h2, promiseAll]
    simp [jsDedup, Ne.symm d01, Ne.symm d02, Ne.symm d12]
  · intro h0 h1 h2
    have hr : List.range 3 = [0, 1, 2] := by decide
    simp only [generateMultipleOptions, hr, List.map_cons, List.map_nil, h0, h1, h2, promiseAll]
    simp [jsDedup]
  · intro count i e hi he
    cases hp : promiseAll ((List.range count).map gen) with
    | error err => exact ⟨wrapMultiErr err, by simp [generateMultipleOptions, hp]⟩
    | ok vs =>
      exfalso
      have hmem : Except.error e ∈ (List.range count).map gen :=
        List.mem_map.mpr ⟨i, List.mem_range.mpr hi, he⟩
      rcases promiseAll_ok_mem hp _ hmem with ⟨v, hv⟩
      simp at hv

/-- C9 witness: three distinct mocked replies give three candidates, and a
count-1 run whose single call fails gives a failure. -/
theorem generateMultipleOptions_spec_witness :
    generateMultipleOptions genBackend 3 = Except.ok [[], ['a'], ['a', 'a']] ∧
    ∃ err, generateMultipleOptions (fun _ => Except.error (toL "boom")) 1 = Except.error err :=
  ⟨(generateMultipleOptions_spec genBackend [] ['a'] ['a', 'a']).1 rfl rfl rfl
      (by decide) (by decide) (by decide),
    (generateMultipleOptions_spec (fun _ => Except.error (toL "boom")) [] [] []).2.2
      1 0 (toL "boom") (by decide) rfl⟩

lemma foldl_dedup_ne_nil {α : Type} [DecidableEq α] :
    ∀ (l : List α) (acc : List α), acc ≠ [] →
      l.foldl (fun acc a => if a ∈ acc then acc else acc ++ [a]) acc ≠ [] := by
  intro l
  induction l with
  | nil =>
    intro acc h
    exact h
  | cons a l ih =>
    intro acc h
    simp only [List.foldl_cons]
    apply ih
    by_cases hm : a ∈ acc
    · simpa [hm]
    · simp [hm]

lemma jsDedup_ne_nil {α : Type} [DecidableEq α] (l : List α) (h : l ≠ []) :
    jsDedup l ≠ [] := by
  cases l with
  | nil => exact absurd rfl h
  | cons a l =>
    unfold jsDedup
    simp only [List.foldl_cons]
    apply foldl_dedup_ne_nil
    simp

/-- C4 counterexample: a rename-only working-copy state (one entry in
`renamed` and in `files`, the four other lists empty) makes `hasChanges`
report true while the classifier's ChangeSet is empty. -/
theorem hasChanges_changeSet_counterexample :
    hasChanges ⟨[], [], [], [], [toL "old.js"], [toL "old.js"]⟩ = true ∧
    changeSet ⟨[], [], [], [], [toL "old.js"], [toL "old.js"]⟩ = [] := by
  exact ⟨by decide, by decide⟩

/-- C4 amended: the invariant holds for every status whose `files` list is
covered by the four classified lists (staged, modified, created, deleted),
i.e. as long as the pending change is not made up solely of entries the
classifier ignores, such as renames: then `hasChanges` true implies the
ChangeSet is non-empty. -/
theorem hasChanges_changeSet (s : GitStatus)
    (hcov : ∀ f ∈ s.files, f ∈ s.staged ++ s.modified ++ s.created ++ s.deleted)
    (h : hasChanges s = true) : changeSet s ≠ [] := by
  have hful : s.files ≠ [] := by
    have hlen : 0 < s.files.length := by simpa [hasChanges] using h
    intro hf
    rw [hf] at hlen
    simp at hlen
  cases hf : s.files with
  | nil => exact absurd hf hful
  | cons f fs =>
    have hm : f ∈ s.staged ++ s.modified ++ s.created ++ s.deleted :=
      hcov f (by rw [hf]; exact List.mem_cons_self f fs)
    have hun : s.staged ++ s.modified ++ s.created ++ s.deleted ≠ [] := by
      intro h0
      rw [h0] at hm
      simp at hm
    exact jsDedup_ne_nil _ hun

/-- C4 witness: a status with one staged file has a non-empty ChangeSet. -/
theorem hasChanges_changeSet_witness :
    changeSet ⟨[toL "a.js"], [], [], [], [], [toL "a.js"]⟩ ≠ [] :=
  hasChanges_changeSet ⟨[toL "a.js"], [], [], [], [], [toL "a.js"]⟩ (by decide) (by decide)

/-! ## Idempotence of the formatter -/

lemma formatCommitMessage_of_conv (style x : Str) (a : ChangeAnalysis)
    (h : isConventionalFormat x = true) : formatCommitMessage style x a = x := by
  simp [formatCommitMessage, h]

lemma isConv_of_restMatch (t : Str) (ht : t ∈ commitTypes) (r : Str)
    (h : restMatch r = true) : isConventionalFormat (t ++ r) = true := by
  unfold isConventionalFormat
  apply List.any_eq_true.mpr
  refine ⟨t, ht, ?_⟩
  unfold matchType
  rw [List.take_left, List.drop_left]
  simp [h]

lemma restMatch_colon (msg : Str) (h : descMatch msg = true) :
    restMatch (':' :: ' ' :: msg) = true := by
  unfold restMatch colonRest
  simp [h]

lemma restMatch_paren (s msg : Str) (hs : s ≠ []) (hsc : s.all dotChar = true)
    (h : descMatch msg = true) :
    restMatch ('(' :: (s ++ ')' :: ':' :: ' ' :: msg)) = true := by
  unfold restMatch
  rw [Bool.or_eq_true]
  right
  unfold parenRest
  apply List.any_eq_true.mpr
  refine ⟨s.length, List.mem_range.mpr ?_, ?_⟩
  · simp
  · rw [List.take_left, List.drop_left]
    rw [Bool.and_eq_true, Bool.and_eq_true]
    refine ⟨⟨decide_eq_true (List.length_pos.mpr hs), hsc⟩, ?_⟩
    simp [closeRest, colonRest, h]

/-- C3 counterexample: with conventional style, a feat-typed scopeless
analysis and the empty raw text, formatting once yields `feat: ` which fails
the conventional pattern, so a second formatting prefixes again. -/
theorem formatCommitMessage_idem_counterexample :
    formatCommitMessage (toL "conventional")
        (formatCommitMessage (toL "conventional") [] ⟨toL "feat", [], [], ⟨0, 0, 0⟩⟩)
        ⟨toL "feat", [], [], ⟨0, 0, 0⟩⟩ ≠
      formatCommitMessage (toL "conventional") [] ⟨toL "feat", [], [], ⟨0, 0, 0⟩⟩ := by
  decide

/-- C3 amended: the formatter is idempotent whenever the analysis type is one
of the seven conventional tags, the scope contains no ECMAScript line
terminator (LF, CR, U+2028, U+2029), and the raw text is non-empty with a
first character that is not a line terminator (for other inputs the prefixed
result can fail the conventional pattern and be prefixed again). -/
theorem formatCommitMessage_idem (style msg : Str) (a : ChangeAnalysis)
    (htype : a.type ∈ commitTypes) (hscope : a.scope.all dotChar = true)
    (hmsg : descMatch msg = true) :
    formatCommitMessage style (formatCommitMessage style msg a) a =
      formatCommitMessage style msg a := by
  by_cases h1 : isConventionalFormat msg = true
  · simp [formatCommitMessage, h1]
  · by_cases h2 : style = toL "conventional"
    · have hy : formatCommitMessage style msg a =
          a.type ++
            ((if a.scope = [] then [] else '(' :: a.scope ++ [')']) ++ ':' :: ' ' :: msg) := by
        simp [formatCommitMessage, h1, h2]
      have hconv : isConventionalFormat (formatCommitMessage style msg a) = true := by
        rw [hy]
        apply isConv_of_restMatch a.type htype
        by_cases hsc : a.scope = []
        · rw [if_pos hsc]
          simpa using restMatch_colon msg hmsg
        · rw [if_neg hsc]
          have hassoc : (('(' :: a.scope ++ [')']) ++ ':' :: ' ' :: msg) =
              '(' :: (a.scope ++ ')' :: ':' :: ' ' :: msg) := by
            simp
          rw [hassoc]
          exact restMatch_paren a.scope msg hsc hscope hmsg
      exact formatCommitMessage_of_conv style _ a hconv
    · simp [formatCommitMessage, h1, h2]

/-- C3 witness: a concrete non-conventional text with a tagged, newline-free
analysis is formatted the same way once as twice. -/
theorem formatCommitMessage_idem_witness :
    formatCommitMessage (toL "conventional")
        (formatCommitMessage (toL "conventional") (toL "hello")
          ⟨toL "fix", toL "core", [], ⟨0, 0, 0⟩⟩)
        ⟨toL "fix", toL "core", [], ⟨0, 0, 0⟩⟩ =
      formatCommitMessage (toL "conventional") (toL "hello")
        ⟨toL "fix", toL "core", [], ⟨0, 0, 0⟩⟩ :=
  formatCommitMessage_idem (toL "conventional") (toL "hello")
    ⟨toL "fix", toL "core", [], ⟨0, 0, 0⟩⟩ (by decide) (by decide) (by decide)

/-! ## Characterisation of the scope reduce -/

lemma firstSegment_eq_nil_of_not_mem (f : Str) (h : '/' ∉ f) : firstSegment f = [] := by
  unfold firstSegment
  rw [splitOnChar_not_mem '/' f h]
  simp

lemma scopeCounts_eq_nil (files : List Str) (h : ∀ f ∈ files, firstSegment f = []) :
    scopeCounts files = [] := by
  revert h
  unfold scopeCounts
  induction files with
  | nil =>
    intro h
    rfl
  | cons f fs ih =>
    intro h
    rw [List.map_cons, List.foldl_cons, if_pos (h f (List.mem_cons_self f fs))]
    exact ih (fun x hx => h x (List.mem_cons_of_mem f hx))

lemma foldl_pick_mem (cnt : Str → Nat) (a : Str) (l : List Str) :
    l.foldl (fun x y => if cnt x > cnt y then x else y) a ∈ a :: l := by
  induction l generalizing a with
  | nil => simp
  | cons b t ih =>
    rw [List.foldl_cons]
    rcases List.mem_cons.mp (ih (if cnt a > cnt b then a else b)) with h1 | h1
    · rw [h1]
      by_cases hc : cnt a > cnt b <;> simp [hc]
    · exact List.mem_cons_of_mem a (List.mem_cons_of_mem b h1)

lemma foldl_pick_max (cnt : Str → Nat) (a : Str) (l : List Str) :
    ∀ k ∈ a :: l, cnt k ≤ cnt (l.foldl (fun x y => if cnt x > cnt y then x else y) a) := by
  induction l generalizing a with
  | nil =>
    intro k hk
    simp at hk
    simp [hk]
  | cons b t ih =>
    intro k hk
    rw [List.foldl_cons]
    have hbase : cnt (if cnt a > cnt b then a else b) ≤
        cnt (t.foldl (fun x y => if cnt x > cnt y then x else y)
          (if cnt a > cnt b then a else b)) :=
      ih _ _ (List.mem_cons_self _ _)
    rcases List.mem_cons.mp hk with h1 | h1
    · have ha : cnt a ≤ cnt (if cnt a > cnt b then a else b) := by
        by_cases hc : cnt a > cnt b
        · rw [if_pos hc]
        · rw [if_neg hc]
          omega
      rw [h1]
      exact le_trans ha hbase
    · rcases List.mem_cons.mp h1 with h2 | h2
      · have hb : cnt b ≤ cnt (if cnt a > cnt b then a else b) := by
          by_cases hc : cnt a > cnt b
          · rw [if_pos hc]
            omega
          · rw [if_neg hc]
        rw [h2]
        exact le_trans hb hbase
      · exact ih _ k (List.mem_cons_of_mem _ h2)

lemma foldl_pick_last (cnt : Str → Nat) (a : Str) (l : List Str) :
    ∃ l₁ l₂, a :: l = l₁ ++ (l.foldl (fun x y => if cnt x > cnt y then x else y) a) :: l₂ ∧
      ∀ j ∈ l₂, cnt j < cnt (l.foldl (fun x y => if cnt x > cnt y then x else y) a) := by
  induction l generalizing a with
  | nil => exact ⟨[], [], rfl, by simp⟩
  | cons b t ih =>
    rw [List.foldl_cons]
    by_cases hc : cnt a > cnt b
    · rw [if_pos hc]
      rcases ih a with ⟨l₁, l₂, heq, hlt⟩
      cases l₁ with
      | nil =>
        simp only [List.nil_append] at heq
        injection heq with ha ht
        refine ⟨[], b :: t, ?_, ?_⟩
        · simp only [List.nil_append]
          rw [← ha]
        · intro j hj
          rw [← ha]
          rcases List.mem_cons.mp hj with h2 | h2
          · rw [h2]
            omega
          · have hjl := hlt j (ht ▸ h2)
            rw [← ha] at hjl
            exact hjl
      | cons x l₁' =>
        simp only [List.cons_append] at heq
        injection heq with hx ht
        refine ⟨a :: b :: l₁', l₂, ?_, hlt⟩
        simp only [List.cons_append]
        exact congrArg (fun z => a :: b :: z) ht
    · rw [if_neg hc]
      rcases ih b with ⟨l₁, l₂, heq, hlt⟩
      refine ⟨a :: l₁, l₂, ?_, hlt⟩
      rw [List.cons_append, ← heq]

/-- C1 counterexample: for the changed paths `a/x` and `b/y` both scope
candidates are tallied once; the code's reduce picks the later candidate `b`,
while the claimed first-encountered tie-break would pick `a`. -/
theorem analyzeScope_tie_counterexample :
    analyzeScope [toL "a/x", toL "b/y"] = toL "b" ∧
    scopeSpecFirstTie [toL "a/x", toL "b/y"] = toL "a" ∧
    analyzeScope [toL "a/x", toL "b/y"] ≠ scopeSpecFirstTie [toL "a/x", toL "b/y"] := by
  refine ⟨by decide, by decide, by decide⟩

/-- C1 amended: the scope is empty when the tally has no keys (in particular
when no path has a directory separator); otherwise it is a tallied candidate
of maximal count over the `Object.keys` enumeration (canonical array-index
keys first in ascending numeric order, then the remaining keys in insertion
order), and every candidate enumerated after it has a strictly smaller count
— ties are broken toward the last-enumerated candidate, not the first. -/
theorem analyzeScope_amended (files : List Str) :
    (jsObjectKeys (scopeCounts files) = [] → analyzeScope files = []) ∧
    ((∀ f ∈ files, '/' ∉ f) → analyzeScope files = []) ∧
    (∀ k ks, jsObjectKeys (scopeCounts files) = k :: ks →
      analyzeScope files ∈ k :: ks ∧
      (∀ j ∈ k :: ks,
        lookupCount (scopeCounts files) j ≤
          lookupCount (scopeCounts files) (analyzeScope files)) ∧
      ∃ l₁ l₂, k :: ks = l₁ ++ analyzeScope files :: l₂ ∧
        ∀ j ∈ l₂,
          lookupCount (scopeCounts files) j <
            lookupCount (scopeCounts files) (analyzeScope files)) := by
  refine ⟨?_, ?_, ?_⟩
  · intro h
    simp [analyzeScope, h]
  · intro h
    have hsc : scopeCounts files = [] :=
      scopeCounts_eq_nil files (fun f hf => firstSegment_eq_nil_of_not_mem f (h f hf))
    simp [analyzeScope, hsc, jsObjectKeys, sortByNum]
  · intro k ks hk
    have hval : analyzeScope files =
        ks.foldl (fun x y => if lookupCount (scopeCounts files) x >
          lookupCount (scopeCounts files) y then x else y) k := by
      simp only [analyzeScope]
      rw [hk]
    refine ⟨?_, ?_, ?_⟩
    · rw [hval]
      exact foldl_pick_mem _ k ks
    · intro j hj
      rw [hval]
      exact foldl_pick_max _ k ks j hj
    · rw [hval]
      exact foldl_pick_last _ k ks

/-- C1 amended witness: on `a/x`, `b/y`, `b/z` the scope is `b`, which is in
the tally, has maximal count, and is followed by no later key. -/
theorem analyzeScope_amended_witness :
    (analyzeScope [toL "a/x", toL "b/y", toL "b/z"] ∈ [toL "a", toL "b"] ∧
      lookupCount (scopeCounts [toL "a/x", toL "b/y", toL "b/z"]) (toL "a") ≤
        lookupCount (scopeCounts [toL "a/x", toL "b/y", toL "b/z"])
          (analyzeScope [toL "a/x", toL "b/y", toL "b/z"])) ∧
    analyzeScope [toL "b/x", toL "1/y"] ∈ [toL "1", toL "b"] := by
  have h := (analyzeScope_amended [toL "a/x", toL "b/y", toL "b/z"]).2.2
    (toL "a") [toL "b"] (by decide)
  have h2 := (analyzeScope_amended [toL "b/x", toL "1/y"]).2.2
    (toL "1") [toL "b"] (by decide)
  exact ⟨⟨h.1, h.2.1 (toL "a") (by decide)⟩, h2.1⟩
